import Mathlib

/-!
Shallow embedding of the u2u-benchmark core (internal/account.go, the
benchmark engine, and its helpers).  Pure fragments of the Go code are
translated into executable Lean functions; the stateful fragments are
translated into explicit state passing.  uint64 values are modelled as
Nat (with an explicit wrap where an increment may overflow); float64
arithmetic in the report is modelled over ℚ, with `Option` marking the
undefined 0/0 case; the network client is passed in as an explicit
query result (`Except`) or per-attempt outcome function.
-/

namespace U2U

/-- Modulus for uint64 arithmetic. -/
def U64MOD : Nat := 2 ^ 64

/-- State of an `AccountSender` (account.go lines 19-30): the locally
tracked nonce plus the per-account `sent` and `errors` counters.  The
immutable identity fields (key, address, chain id) are carried outside
this structure where needed. -/
structure AccountSender where
  nonce : Nat
  sent : Nat
  errors : Nat
deriving Repr, DecidableEq

/-- `GetNextNonce` (lines 196-200): returns the current nonce WITHOUT
incrementing; the mutex only makes the read atomic, the state is
returned unchanged. -/
def GetNextNonce (a : AccountSender) : Nat × AccountSender :=
  (a.nonce, a)

/-- `IncrementNonce` (lines 203-207): `a.nonce++` on a uint64. -/
def IncrementNonce (a : AccountSender) : AccountSender :=
  { a with nonce := (a.nonce + 1) % U64MOD }

/-- `CurrentNonce` (lines 229-233): atomic read without mutation. -/
def CurrentNonce (a : AccountSender) : Nat :=
  a.nonce

/-- `ResyncNonce` (lines 210-221).  The result of
`client.PendingNonceAt` is passed in as `query`; on error the error is
returned and the account is untouched, on success the local nonce is
overwritten with the queried value. -/
def ResyncNonce (query : Except String Nat) (a : AccountSender) :
    Except String Unit × AccountSender :=
  match query with
  | Except.error e => (Except.error e, a)
  | Except.ok n => (Except.ok (), { a with nonce := n })

/-- Fields of the transaction built by `sendTransaction`: the nonce it
is addressed at and the target address (addresses modelled as Nat). -/
structure TxParams where
  nonce : Nat
  target : Nat
deriving Repr, DecidableEq

/-- `sendTransaction` (lines 462-489), the pure part: the nonce comes
from `GetNextNonce` and the target is the `from` address of the account
at index `(accountID + 1) % len(accounts)` (round-robin).  `fromAddrs`
is the list of the accounts' addresses in order; the signing and the
network submission do not touch the account state. -/
def sendTransaction (fromAddrs : List Nat) (accountID : Nat)
    (a : AccountSender) : TxParams × AccountSender :=
  let alloc := GetNextNonce a
  let targetIndex := (accountID + 1) % fromAddrs.length
  ({ nonce := alloc.1, target := fromAddrs.getD targetIndex 0 }, alloc.2)

/-- Go `strings.Contains hay needle` on rune lists: some tail of `hay`
starts with `needle`. -/
def strContains (hay needle : List Char) : Bool :=
  hay.tails.any (fun t => needle.isPrefixOf t)

/-- Go `strings.ToLower` on the rune list of a message (ASCII error
messages only reach this in the source). -/
def strToLower (s : String) : List Char :=
  s.data.map Char.toLower

/-- `isNonceError` (lines 451-460): `none` models a nil error, `some
msg` an error with message `msg`; the message is lowercased and checked
for the four substrings. -/
def isNonceError : Option String → Bool
  | none => false
  | some msg =>
    let errStr := strToLower msg
    strContains errStr "nonce".data ||
    strContains errStr "nonce too low".data ||
    strContains errStr "already known".data ||
    strContains errStr "replacement transaction underpriced".data

/-- A transient (non-nonce) error: a non-nil error that is not
nonce-class.  This is the class the worker retries and, on exhaustion,
counts. -/
def isTransientError (o : Option String) : Bool :=
  o.isSome && !(isNonceError o)

/-- State at exit of the retry loop of `senderWorker` (lines 396-425):
the `err` variable, how many successes were recorded inside the loop,
and the values of `consecutiveErrors` / `firstTransaction` at exit. -/
structure LoopState where
  err : Option String
  sentInc : Nat
  consecutiveErrors : Nat
  firstTransaction : Bool
deriving Repr, DecidableEq

/-- The retry loop of `senderWorker` (lines 396-425), with the send
outcome of retry number `i` given by `outcome i` (`none` = success).
`remaining` is the fuel `maxRetries - retry`.  On success the loop
records the send and breaks; on a nonce-class error it breaks without
recording; on any other error it retries. -/
def retryLoopAux (outcome : Nat → Option String) (consecutive : Nat)
    (firstTx : Bool) : Nat → Option String → Nat → LoopState
  | _retry, err, 0 =>
    { err := err, sentInc := 0, consecutiveErrors := consecutive,
      firstTransaction := firstTx }
  | retry, _err, remaining + 1 =>
    match outcome retry with
    | none =>
      { err := none, sentInc := 1, consecutiveErrors := 0,
        firstTransaction := false }
    | some e =>
      if isNonceError (some e) then
        { err := some e, sentInc := 0, consecutiveErrors := 0,
          firstTransaction := false }
      else
        retryLoopAux outcome consecutive firstTx (retry + 1) (some e) remaining

/-- The retry loop entered with `retry = 0`, `err = nil` and the given
retry budget. -/
def retryLoop (outcome : Nat → Option String) (maxRetries consecutive : Nat)
    (firstTx : Bool) : LoopState :=
  retryLoopAux outcome consecutive firstTx 0 none maxRetries

/-- Result of one full iteration of the worker's outer loop: counter
increments, the updated `consecutiveErrors` / `firstTransaction`, and
the extra backoff (in ms) slept after the accounting. -/
structure IterResult where
  sentInc : Nat
  errorInc : Nat
  accountErrorInc : Nat
  consecutiveErrors : Nat
  firstTransaction : Bool
  backoffMs : Nat
deriving Repr, DecidableEq

/-- The accounting after the retry loop (lines 429-445): a leftover
non-nonce error counts once into the global and per-account error
counters, bumps `consecutiveErrors` and sleeps 5 ms while
`consecutiveErrors < 5`; a leftover nonce-class error is not counted
and resets `consecutiveErrors`. -/
def afterRetries (ls : LoopState) : IterResult :=
  match ls.err with
  | some e =>
    if !(isNonceError (some e)) then
      let c := ls.consecutiveErrors + 1
      { sentInc := ls.sentInc, errorInc := 1, accountErrorInc := 1,
        consecutiveErrors := c, firstTransaction := ls.firstTransaction,
        backoffMs := if c < 5 then 5 else 0 }
    else
      { sentInc := ls.sentInc, errorInc := 0, accountErrorInc := 0,
        consecutiveErrors := 0, firstTransaction := ls.firstTransaction,
        backoffMs := 0 }
  | none =>
    { sentInc := ls.sentInc, errorInc := 0, accountErrorInc := 0,
      consecutiveErrors := ls.consecutiveErrors,
      firstTransaction := ls.firstTransaction, backoffMs := 0 }

/-- The retry budget of the current outer-loop iteration (lines 378,
391-394): 8 for the worker's first transaction, `maxRetriesPerNonce =
2` afterwards. -/
def workerMaxRetries (firstTx : Bool) : Nat :=
  if firstTx then 8 else 2

/-- One iteration of the outer loop of `senderWorker` (lines 381-447):
the retry loop with the budget of lines 391-394, then the post-loop
accounting. -/
def workerIteration (outcome : Nat → Option String) (consecutive : Nat)
    (firstTx : Bool) : IterResult :=
  afterRetries (retryLoop outcome (workerMaxRetries firstTx) consecutive firstTx)

/-- The three global atomic counters of a `Benchmark` run. -/
structure Counters where
  sentCount : Nat
  errorCount : Nat
  totalLatency : Int
deriving Repr, DecidableEq

/-- The observable steps of the shutdown path of `Start`. -/
inductive ShutdownEvent where
  | readSent (v : Nat)
  | readErrors (v : Nat)
  | readLatency (v : Int)
  | closeStopChan
  | waitWorkers
  | closeMetricsChan
  | report (sent : Nat) (errors : Nat) (latency : Int)
deriving Repr, DecidableEq

/-- Which events are reads of a global counter. -/
def isCounterRead : ShutdownEvent → Bool
  | ShutdownEvent.readSent _ => true
  | ShutdownEvent.readErrors _ => true
  | ShutdownEvent.readLatency _ => true
  | _ => false

/-- What the shutdown produced: the ordered event trace and the counter
values after the workers drained. -/
structure ShutdownResult where
  events : List ShutdownEvent
  countersAfterDrain : Counters
deriving Repr, DecidableEq

/-- The shutdown tail of `Start` (lines 345-364): after the run
duration elapses the three counters are loaded once each into locals,
then `stopChan` is closed, then `wg.Wait()` lets the workers drain
(modelled by `drain`, the counters' value once every worker exited),
then the metrics channel is closed and `printFinalReport` is called
with the frozen locals. -/
def startShutdown (c : Counters) (drain : Counters → Counters) :
    ShutdownResult :=
  let finalSent := c.sentCount
  let finalErrors := c.errorCount
  let finalLatency := c.totalLatency
  let drained := drain c
  { events :=
      [ ShutdownEvent.readSent finalSent,
        ShutdownEvent.readErrors finalErrors,
        ShutdownEvent.readLatency finalLatency,
        ShutdownEvent.closeStopChan,
        ShutdownEvent.waitWorkers,
        ShutdownEvent.closeMetricsChan,
        ShutdownEvent.report finalSent finalErrors finalLatency ],
    countersAfterDrain := drained }

/-- The totals carried by the (first) report event of a trace. -/
def reportOf (evs : List ShutdownEvent) : Option (Nat × Nat × Int) :=
  evs.findSome? (fun e =>
    match e with
    | ShutdownEvent.report s er l => some (s, er, l)
    | _ => none)

/-- float64 division modelled over ℚ: 0/0 (the only division the report
code can hit with a zero divisor) is IEEE NaN, modelled as `none`. -/
def fdiv (a b : ℚ) : Option ℚ :=
  if b = 0 then none else some (a / b)

/-- The accept rate as rendered by `printFinalReport` (line 551):
`float64(sent)/float64(sent+errors)*100`, with no guard on a zero
denominator. -/
def printedAcceptRate (sent errors : Nat) : Option ℚ :=
  (fdiv (sent : ℚ) ((sent : ℚ) + (errors : ℚ))).map (fun r => r * 100)

/-- The accept rate as persisted by `saveResults` (lines 585-588):
initialised to 0 and only overwritten when `sent+errors > 0`. -/
def savedAcceptRate (sent errors : Nat) : ℚ :=
  if sent + errors > 0 then (sent : ℚ) / ((sent : ℚ) + (errors : ℚ)) * 100
  else 0

/-- One sweep of the inner loop of the bubble sort in
`calculateTPSStats` (lines 679-683), with `a` the element currently
sitting at position `j`: adjacent elements are swapped when out of
order, left to right. -/
def bubblePassAux (a : Nat) : List Nat → List Nat
  | [] => [a]
  | b :: rest =>
    if b < a then b :: bubblePassAux a rest
    else a :: bubblePassAux b rest

/-- One full sweep of the inner loop. -/
def bubblePass : List Nat → List Nat
  | [] => []
  | a :: rest => bubblePassAux a rest

/-- The outer loop of the bubble sort (lines 678-684).  Outer iteration
`i` only compares indices `j < len-i-1`, i.e. sweeps the first `len-i`
elements; counting the remaining iterations by `k` (so the sweep
touches the first `k+2` elements), iteration `i` corresponds to
`k = len-1-i` and the loop runs `k = len-1, ..., 1`. -/
def bubbleGo : Nat → List Nat → List Nat
  | 0, l => l
  | k + 1, l => bubbleGo k (bubblePass (l.take (k + 2)) ++ l.drop (k + 2))

/-- The full bubble sort of `calculateTPSStats` on a copy of the
history: `len-1` outer iterations. -/
def bubbleSortGo (l : List Nat) : List Nat :=
  bubbleGo (l.length - 1) l

/-- `calculateTPSStats` (lines 668-691): on an empty history return
(0,0,0); otherwise sort ascending and return `sorted[0]`,
`sorted[len-1]`, `sorted[len/2]`. -/
def calculateTPSStats (tpsHistory : List Nat) : Nat × Nat × Nat :=
  if tpsHistory.isEmpty then (0, 0, 0)
  else
    let sorted := bubbleSortGo tpsHistory
    (sorted.headD 0, sorted.getLastD 0, sorted.getD (sorted.length / 2) 0)

/-! ## Theorems -/

/-- C1: contrary to the claim, the nonce-allocation operation used on
the submission path does not advance the account's sequence number:
`sendTransaction` reads the nonce through `GetNextNonce`, which leaves
the state unchanged, and `IncrementNonce` is never called on that path.
Starting from nonce 5, two successive allocation calls both return 5
instead of the distinct contiguous values 5 and 6. -/
theorem sendTransaction_never_advances_nonce :
    (∀ (fromAddrs : List Nat) (i : Nat) (a : AccountSender),
      (sendTransaction fromAddrs i a).2 = a) ∧
    ((sendTransaction [100, 101] 0 ⟨5, 0, 0⟩).1.nonce = 5 ∧
     (sendTransaction [100, 101] 0
        (sendTransaction [100, 101] 0 ⟨5, 0, 0⟩).2).1.nonce = 5) := by
  exact ⟨fun _ _ _ => rfl, by decide⟩

/-- C2: on the shutdown path of `Start`, each of the three global
counters is read exactly once, the three reads come strictly before the
worker stop signal is broadcast, the final report carries exactly the
frozen snapshot values, and the whole event trace (the report totals
included) is independent of whatever the draining workers do to the
counters afterwards. -/
theorem start_freezes_snapshot_before_stop (c : Counters)
    (drain drain' : Counters → Counters) :
    (startShutdown c drain).events.filter isCounterRead =
      [ShutdownEvent.readSent c.sentCount,
       ShutdownEvent.readErrors c.errorCount,
       ShutdownEvent.readLatency c.totalLatency] ∧
    (startShutdown c drain).events.take 4 =
      [ShutdownEvent.readSent c.sentCount,
       ShutdownEvent.readErrors c.errorCount,
       ShutdownEvent.readLatency c.totalLatency,
       ShutdownEvent.closeStopChan] ∧
    reportOf (startShutdown c drain).events =
      some (c.sentCount, c.errorCount, c.totalLatency) ∧
    (startShutdown c drain).events = (startShutdown c drain').events := by
  exact ⟨rfl, rfl, rfl, rfl⟩

/-- C8: a successful resync overwrites the local nonce with exactly the
value reported by the network client, whatever the prior local value
was, and leaves the per-account counters alone. -/
theorem resyncNonce_overwrites (a : AccountSender) (n : Nat) :
    (ResyncNonce (Except.ok n) a).1 = Except.ok () ∧
    (ResyncNonce (Except.ok n) a).2.nonce = n ∧
    (ResyncNonce (Except.ok n) a).2.sent = a.sent ∧
    (ResyncNonce (Except.ok n) a).2.errors = a.errors := by
  exact ⟨rfl, rfl, rfl, rfl⟩

/-- C10: when the network query fails, `ResyncNonce` returns the error
and leaves the account state entirely unchanged. -/
theorem resyncNonce_error_keeps_state (a : AccountSender) (e : String) :
    (ResyncNonce (Except.error e) a).1 = Except.error e ∧
    (ResyncNonce (Except.error e) a).2 = a := by
  exact ⟨rfl, rfl⟩

/-- C7: the transaction built by `sendTransaction` for the account at
index `i` targets the address of the account at index `(i+1) mod N`;
in particular the last account wraps around to account 0. -/
theorem sendTransaction_roundRobin (fromAddrs : List Nat) (i : Nat)
    (a : AccountSender) (h : fromAddrs ≠ []) :
    (i + 1) % fromAddrs.length < fromAddrs.length ∧
    (sendTransaction fromAddrs i a).1.target =
      fromAddrs.getD ((i + 1) % fromAddrs.length) 0 ∧
    (i + 1 = fromAddrs.length →
      (sendTransaction fromAddrs i a).1.target = fromAddrs.getD 0 0) := by
  have hlen : 0 < fromAddrs.length := List.length_pos.mpr h
  refine ⟨Nat.mod_lt _ hlen, rfl, ?_⟩
  intro hi
  simp [sendTransaction, hi, Nat.mod_self]

/-- Witness for C7: with 4 accounts at addresses 10,11,12,13, account
3's target is account 0's address. -/
theorem sendTransaction_roundRobin_witness :
    (sendTransaction [10, 11, 12, 13] 3 ⟨0, 0, 0⟩).1.target = 10 := by
  have h := sendTransaction_roundRobin [10, 11, 12, 13] 3 ⟨0, 0, 0⟩ (by decide)
  simpa using h.2.2 (by decide)

/-- C5 counterexample: when both `sent` and `errors` are zero, the
rendered final report does not report 0 — line 551 divides by zero
unguarded (IEEE 0/0, i.e. NaN, modelled as `none`); only the persisted
record reports 0. -/
theorem printedAcceptRate_zero_zero_not_zero :
    printedAcceptRate 0 0 = none ∧
    printedAcceptRate 0 0 ≠ some 0 ∧
    savedAcceptRate 0 0 = 0 := by
  refine ⟨?_, ?_, ?_⟩ <;> simp [printedAcceptRate, savedAcceptRate, fdiv]

/-- C5 (amended): both the rendered report and the persisted record
compute the accept rate as sent/(sent+errors)·100 whenever at least one
transaction outcome was counted, and both give 100 for sent=669,
errors=0; but when both counters are zero only the persisted record
reports 0 — the rendered report performs the unguarded division 0/0
(NaN). -/
theorem acceptRate_spec (sent errors : Nat) :
    (0 < sent + errors →
      printedAcceptRate sent errors =
        some ((sent : ℚ) / ((sent : ℚ) + (errors : ℚ)) * 100) ∧
      savedAcceptRate sent errors =
        (sent : ℚ) / ((sent : ℚ) + (errors : ℚ)) * 100) ∧
    (sent + errors = 0 →
      printedAcceptRate sent errors = none ∧
      savedAcceptRate sent errors = 0) ∧
    printedAcceptRate 669 0 = some 100 ∧
    savedAcceptRate 669 0 = 100 := by
  refine ⟨?_, ?_, ?_, ?_⟩
  · intro hpos
    have hne : (sent : ℚ) + (errors : ℚ) ≠ 0 := by
      have : ((sent + errors : Nat) : ℚ) ≠ 0 := by
        exact_mod_cast Nat.pos_iff_ne_zero.mp hpos
      push_cast at this
      exact this
    constructor
    · simp [printedAcceptRate, fdiv, hne]
    · simp [savedAcceptRate, hpos]
  · intro hzero
    have hs : sent = 0 := by omega
    have he : errors = 0 := by omega
    subst hs; subst he
    constructor
    · simp [printedAcceptRate, fdiv]
    · simp [savedAcceptRate]
  · norm_num [printedAcceptRate, fdiv]
  · norm_num [savedAcceptRate]

/-- Witness for C5: the amended theorem applied at sent=669, errors=0
yields the 100.00% accept rate. -/
theorem acceptRate_spec_witness :
    printedAcceptRate 669 0 =
      some (((669 : Nat) : ℚ) / (((669 : Nat) : ℚ) + ((0 : Nat) : ℚ)) * 100) ∧
    savedAcceptRate 669 0 =
      ((669 : Nat) : ℚ) / (((669 : Nat) : ℚ) + ((0 : Nat) : ℚ)) * 100 :=
  (acceptRate_spec 669 0).1 (by norm_num)

/-- A transient outcome is a `some` message that is not nonce-class. -/
theorem transient_elim {o : Option String}
    (h : isTransientError o = true) :
    ∃ e, o = some e ∧ isNonceError (some e) = false := by
  cases o with
  | none => simp [isTransientError] at h
  | some e => exact ⟨e, rfl, by simpa [isTransientError] using h⟩

/-- If every attempt in the remaining budget fails with a transient
error, the retry loop exhausts the budget and exits with the last
attempt's error, leaving `consecutiveErrors` and `firstTransaction`
untouched. -/
theorem retryLoopAux_all_transient (outcome : Nat → Option String)
    (c : Nat) (f : Bool) :
    ∀ (remaining retry : Nat) (err0 : Option String), 0 < remaining →
    (∀ j, retry ≤ j → j < retry + remaining →
      isTransientError (outcome j) = true) →
    retryLoopAux outcome c f retry err0 remaining =
      { err := outcome (retry + remaining - 1), sentInc := 0,
        consecutiveErrors := c, firstTransaction := f } := by
  intro remaining
  induction remaining with
  | zero => intro retry err0 h; omega
  | succ n ih =>
    intro retry err0 _ hall
    obtain ⟨e, he, hnn⟩ := transient_elim (hall retry le_rfl (by omega))
    cases n with
    | zero => simp [retryLoopAux, he, hnn, Nat.add_sub_cancel]
    | succ m =>
      have step : retryLoopAux outcome c f retry err0 (m + 1 + 1) =
          retryLoopAux outcome c f (retry + 1) (some e) (m + 1) := by
        simp [retryLoopAux, he, hnn]
      rw [step, ih (retry + 1) (some e) (Nat.succ_pos m)
        (fun j h1 h2 => hall j (by omega) (by omega))]
      have harg : retry + 1 + (m + 1) - 1 = retry + (m + 1 + 1) - 1 := by omega
      rw [harg]

/-- If the first non-transient attempt in the budget is a success, the
retry loop records the send and breaks. -/
theorem retryLoopAux_success (outcome : Nat → Option String)
    (c : Nat) (f : Bool) :
    ∀ (remaining retry : Nat) (err0 : Option String) (j : Nat),
    retry ≤ j → j < retry + remaining →
    (∀ i, retry ≤ i → i < j → isTransientError (outcome i) = true) →
    outcome j = none →
    retryLoopAux outcome c f retry err0 remaining =
      { err := none, sentInc := 1, consecutiveErrors := 0,
        firstTransaction := false } := by
  intro remaining
  induction remaining with
  | zero => intro retry err0 j h1 h2; omega
  | succ n ih =>
    intro retry err0 j h1 h2 hpre hj
    rcases Nat.eq_or_lt_of_le h1 with rfl | hlt
    · simp [retryLoopAux, hj]
    · obtain ⟨e, he, hnn⟩ := transient_elim (hpre retry le_rfl hlt)
      have step : retryLoopAux outcome c f retry err0 (n + 1) =
          retryLoopAux outcome c f (retry + 1) (some e) n := by
        simp [retryLoopAux, he, hnn]
      rw [step]
      exact ih (retry + 1) (some e) j hlt (by omega)
        (fun i hi1 hi2 => hpre i (by omega) hi2) hj

/-- If the first non-transient attempt in the budget is a nonce-class
error, the retry loop breaks without recording a send and resets the
consecutive-error counter. -/
theorem retryLoopAux_nonce (outcome : Nat → Option String)
    (c : Nat) (f : Bool) :
    ∀ (remaining retry : Nat) (err0 : Option String) (j : Nat) (e : String),
    retry ≤ j → j < retry + remaining →
    (∀ i, retry ≤ i → i < j → isTransientError (outcome i) = true) →
    outcome j = some e → isNonceError (some e) = true →
    retryLoopAux outcome c f retry err0 remaining =
      { err := some e, sentInc := 0, consecutiveErrors := 0,
        firstTransaction := false } := by
  intro remaining
  induction remaining with
  | zero => intro retry err0 j e h1 h2; omega
  | succ n ih =>
    intro retry err0 j e h1 h2 hpre hj hn
    rcases Nat.eq_or_lt_of_le h1 with rfl | hlt
    · simp [retryLoopAux, hj, hn]
    · obtain ⟨e', he', hnn'⟩ := transient_elim (hpre retry le_rfl hlt)
      have step : retryLoopAux outcome c f retry err0 (n + 1) =
          retryLoopAux outcome c f (retry + 1) (some e') n := by
        simp [retryLoopAux, he', hnn']
      rw [step]
      exact ih (retry + 1) (some e') j e hlt (by omega)
        (fun i hi1 hi2 => hpre i (by omega) hi2) hj hn

theorem workerMaxRetries_pos (f : Bool) : 0 < workerMaxRetries f := by
  cases f <;> simp [workerMaxRetries]

/-- Exhausted retries: all attempts in the budget transient. -/
theorem workerIteration_all_transient (outcome : Nat → Option String)
    (c : Nat) (f : Bool)
    (hall : ∀ j, j < workerMaxRetries f →
      isTransientError (outcome j) = true) :
    workerIteration outcome c f =
      { sentInc := 0, errorInc := 1, accountErrorInc := 1,
        consecutiveErrors := c + 1, firstTransaction := f,
        backoffMs := if c + 1 < 5 then 5 else 0 } := by
  have hmr := workerMaxRetries_pos f
  have h1 := retryLoopAux_all_transient outcome c f (workerMaxRetries f) 0
    none hmr (fun j hj1 hj2 => hall j (by omega))
  obtain ⟨e, he, hnn⟩ :=
    transient_elim (hall (workerMaxRetries f - 1) (by omega))
  unfold workerIteration retryLoop
  rw [h1]
  simp only [Nat.zero_add]
  rw [he]
  simp [afterRetries, hnn]

/-- Eventual success: the attempt at index `j` succeeds after `j`
transient failures within the budget. -/
theorem workerIteration_success (outcome : Nat → Option String)
    (c : Nat) (f : Bool) (j : Nat) (hj : j < workerMaxRetries f)
    (hpre : ∀ i, i < j → isTransientError (outcome i) = true)
    (hs : outcome j = none) :
    workerIteration outcome c f =
      { sentInc := 1, errorInc := 0, accountErrorInc := 0,
        consecutiveErrors := 0, firstTransaction := false,
        backoffMs := 0 } := by
  have h1 := retryLoopAux_success outcome c f (workerMaxRetries f) 0 none j
    (Nat.zero_le j) (by omega) (fun i hi1 hi2 => hpre i hi2) hs
  unfold workerIteration retryLoop
  rw [h1]
  simp [afterRetries]

/-- Nonce-class break: the attempt at index `j` hits a nonce error
after `j` transient failures within the budget. -/
theorem workerIteration_nonce (outcome : Nat → Option String)
    (c : Nat) (f : Bool) (j : Nat) (e : String)
    (hj : j < workerMaxRetries f)
    (hpre : ∀ i, i < j → isTransientError (outcome i) = true)
    (he : outcome j = some e) (hn : isNonceError (some e) = true) :
    workerIteration outcome c f =
      { sentInc := 0, errorInc := 0, accountErrorInc := 0,
        consecutiveErrors := 0, firstTransaction := false,
        backoffMs := 0 } := by
  have h1 := retryLoopAux_nonce outcome c f (workerMaxRetries f) 0 none j e
    (Nat.zero_le j) (by omega) (fun i hi1 hi2 => hpre i hi2) he hn
  unfold workerIteration retryLoop
  rw [h1]
  simp [afterRetries, hn]

/-- C3: for every attempt sequence of one worker iteration, the global
and per-account error counters increment exactly once when transient
errors exhaust the whole retry budget; they increment zero times when
an attempt succeeds (possibly after transient retries) or when a
nonce-class error is hit; a nonce-class error additionally resets the
consecutive-error counter and ends the iteration without consulting
any later attempt (it is not retried). -/
theorem senderWorker_error_accounting (outcome : Nat → Option String)
    (c : Nat) (f : Bool) :
    ((∀ j, j < workerMaxRetries f → isTransientError (outcome j) = true) →
      (workerIteration outcome c f).errorInc = 1 ∧
      (workerIteration outcome c f).accountErrorInc = 1) ∧
    (∀ j, j < workerMaxRetries f →
      (∀ i, i < j → isTransientError (outcome i) = true) →
      outcome j = none →
      (workerIteration outcome c f).errorInc = 0 ∧
      (workerIteration outcome c f).accountErrorInc = 0 ∧
      (workerIteration outcome c f).sentInc = 1) ∧
    (∀ j e, j < workerMaxRetries f →
      (∀ i, i < j → isTransientError (outcome i) = true) →
      outcome j = some e → isNonceError (some e) = true →
      (workerIteration outcome c f).errorInc = 0 ∧
      (workerIteration outcome c f).accountErrorInc = 0 ∧
      (workerIteration outcome c f).consecutiveErrors = 0 ∧
      (∀ outcome2 : Nat → Option String,
        (∀ i, i ≤ j → outcome2 i = outcome i) →
        workerIteration outcome2 c f = workerIteration outcome c f)) := by
  refine ⟨?_, ?_, ?_⟩
  · intro hall
    rw [workerIteration_all_transient outcome c f hall]
    exact ⟨rfl, rfl⟩
  · intro j hj hpre hs
    rw [workerIteration_success outcome c f j hj hpre hs]
    exact ⟨rfl, rfl, rfl⟩
  · intro j e hj hpre he hn
    rw [workerIteration_nonce outcome c f j e hj hpre he hn]
    refine ⟨rfl, rfl, rfl, ?_⟩
    intro outcome2 hagree
    rw [workerIteration_nonce outcome2 c f j e hj
      (fun i hi => by rw [hagree i (by omega)]; exact hpre i hi)
      (by rw [hagree j le_rfl]; exact he) hn]

/-- Witness for C3: every attempt answering "connection reset" (a
transient error) makes the exhausted-retry case fire and the error
counters increment exactly once. -/
theorem senderWorker_error_accounting_witness :
    (workerIteration (fun _ => some "connection reset") 7 false).errorInc = 1 ∧
    (workerIteration (fun _ => some "connection reset") 7 false).accountErrorInc = 1 :=
  (senderWorker_error_accounting (fun _ => some "connection reset") 7 false).1
    (by decide)

/-- C4 counterexample: the post-exhaustion backoff is not proportional
and does not stay positive: it is 5 ms while the consecutive-error
counter is below 5 and drops to 0 once the counter reaches 5, directly
contradicting "the backoff never decreases to zero as consecutive
failures grow". -/
theorem backoff_drops_to_zero :
    (workerIteration (fun _ => some "timeout") 3 false).backoffMs = 5 ∧
    (workerIteration (fun _ => some "timeout") 4 false).backoffMs = 0 ∧
    (workerIteration (fun _ => some "timeout") 4 false).errorInc = 1 ∧
    (workerIteration (fun _ => some "timeout") 4 false).consecutiveErrors = 5 := by
  decide

/-- C4 (amended): after a transient error exhausts all retries the
worker increments the consecutive-error counter, and the additional
backoff is a fixed 5 ms while the resulting counter is below 5 and zero
from the fifth consecutive failure on — bounded by 5 ms but not
proportional, and vanishing (rather than capped) as failures grow. -/
theorem backoff_policy (outcome : Nat → Option String) (c : Nat) (f : Bool)
    (hall : ∀ j, j < workerMaxRetries f →
      isTransientError (outcome j) = true) :
    (workerIteration outcome c f).consecutiveErrors = c + 1 ∧
    (workerIteration outcome c f).errorInc = 1 ∧
    (workerIteration outcome c f).backoffMs =
      (if c + 1 < 5 then 5 else 0) ∧
    (workerIteration outcome c f).backoffMs ≤ 5 := by
  rw [workerIteration_all_transient outcome c f hall]
  refine ⟨rfl, rfl, rfl, ?_⟩
  dsimp only
  split <;> omega

/-- Witness for C4: with every attempt answering "connection refused"
and 9 consecutive failures already recorded, the tenth failure gets no
backoff at all. -/
theorem backoff_policy_witness :
    (workerIteration (fun _ => some "connection refused") 9 true).consecutiveErrors = 9 + 1 ∧
    (workerIteration (fun _ => some "connection refused") 9 true).errorInc = 1 ∧
    (workerIteration (fun _ => some "connection refused") 9 true).backoffMs =
      (if 9 + 1 < 5 then 5 else 0) ∧
    (workerIteration (fun _ => some "connection refused") 9 true).backoffMs ≤ 5 :=
  backoff_policy (fun _ => some "connection refused") 9 true (by decide)

/-! ### Correctness of the bubble sort used by `calculateTPSStats` -/

theorem bubblePassAux_perm :
    ∀ (l : List Nat) (a : Nat), List.Perm (bubblePassAux a l) (a :: l) := by
  intro l
  induction l with
  | nil => intro a; simp [bubblePassAux]
  | cons b t ih =>
    intro a
    by_cases hba : b < a
    · simp only [bubblePassAux, if_pos hba]
      exact ((ih a).cons b).trans (List.Perm.swap a b t)
    · simp only [bubblePassAux, if_neg hba]
      exact (ih b).cons a

theorem bubblePass_perm (l : List Nat) : List.Perm (bubblePass l) l := by
  cases l with
  | nil => simp [bubblePass]
  | cons a t => exact bubblePassAux_perm t a

/-- `getLastD` of a nonempty list ignores the default. -/
theorem getLastD_ne_nil {l : List Nat} (h : l ≠ []) (d d' : Nat) :
    l.getLastD d = l.getLastD d' := by
  cases l with
  | nil => exact absurd rfl h
  | cons a t => rw [List.getLastD_cons, List.getLastD_cons]

/-- Every element swept by one inner-loop pass is at most the last
element of the result: the pass bubbles a maximum to the end. -/
theorem bubblePassAux_le_getLastD :
    ∀ (l : List Nat) (a x : Nat), x ∈ a :: l →
      x ≤ (bubblePassAux a l).getLastD 0 := by
  intro l
  induction l with
  | nil =>
    intro a x hx
    simp only [List.mem_singleton] at hx
    simp [bubblePassAux, hx]
  | cons b t ih =>
    intro a x hx
    by_cases hba : b < a
    · simp only [bubblePassAux, if_pos hba, List.getLastD_cons]
      have hne : bubblePassAux a t ≠ [] := by
        intro hnil
        have := (bubblePassAux_perm t a).length_eq
        rw [hnil] at this
        simp at this
      rw [getLastD_ne_nil hne b 0]
      rcases List.mem_cons.mp hx with rfl | hx'
      · exact ih x x (by simp)
      · rcases List.mem_cons.mp hx' with rfl | hx''
        · exact le_trans (le_of_lt hba) (ih a a (by simp))
        · exact ih a x (by simp [hx''])
    · simp only [bubblePassAux, if_neg hba, List.getLastD_cons]
      have hne : bubblePassAux b t ≠ [] := by
        intro hnil
        have := (bubblePassAux_perm t b).length_eq
        rw [hnil] at this
        simp at this
      rw [getLastD_ne_nil hne a 0]
      rcases List.mem_cons.mp hx with rfl | hx'
      · exact le_trans (Nat.le_of_not_lt hba) (ih b b (by simp))
      · exact ih b x hx'

theorem bubblePass_le_getLastD {l : List Nat} (h : l ≠ []) :
    ∀ x ∈ l, x ≤ (bubblePass l).getLastD 0 := by
  cases l with
  | nil => exact absurd rfl h
  | cons a t => exact fun x hx => bubblePassAux_le_getLastD t a x hx

/-- Head of a sorted list is a lower bound of its elements. -/
theorem sorted_headD_le {s : List Nat} (hs : s.Sorted (· ≤ ·)) {x : Nat}
    (hx : x ∈ s) : s.headD 0 ≤ x := by
  cases s with
  | nil => simp at hx
  | cons a t =>
    rcases List.mem_cons.mp hx with rfl | hxt
    · simp
    · simpa using (List.sorted_cons.mp hs).1 x hxt

/-- Last element of a sorted list is an upper bound of its elements. -/
theorem sorted_le_getLastD {s : List Nat} (hs : s.Sorted (· ≤ ·)) {x : Nat}
    (hx : x ∈ s) : x ≤ s.getLastD 0 := by
  induction s generalizing x with
  | nil => simp at hx
  | cons a t ih =>
    rw [List.getLastD_cons]
    cases t with
    | nil =>
      simp only [List.mem_singleton] at hx
      simp [hx, List.getLastD]
    | cons b u =>
      rw [getLastD_ne_nil (by simp) a 0]
      have hcons := List.sorted_cons.mp hs
      rcases List.mem_cons.mp hx with rfl | hx'
      · exact le_trans (hcons.1 b (by simp)) (ih hcons.2 (by simp))
      · exact ih hcons.2 hx'

/-- Invariant of the outer loop: if the suffix beyond position `k` is
already sorted and dominates the prefix, the remaining `k` iterations
sort the whole list, permuting it. -/
theorem bubbleGo_sorted_perm :
    ∀ (k : Nat) (l : List Nat),
    (l.drop (k + 1)).Sorted (· ≤ ·) →
    (∀ x ∈ l.take (k + 1), ∀ y ∈ l.drop (k + 1), x ≤ y) →
    (bubbleGo k l).Sorted (· ≤ ·) ∧ List.Perm (bubbleGo k l) l := by
  intro k
  induction k with
  | zero =>
    intro l hs hle
    refine ⟨?_, by simp [bubbleGo]⟩
    cases l with
    | nil => simp [bubbleGo]
    | cons a t =>
      simp only [bubbleGo]
      rw [List.sorted_cons]
      refine ⟨fun b hb => hle a (by simp) b (by simpa using hb), ?_⟩
      simpa using hs
  | succ k ih =>
    intro l hs hle
    have h12 : k + 1 + 1 = k + 2 := by omega
    rw [h12] at hs hle
    by_cases hlen : l.length ≤ k + 1
    · have ht : l.take (k + 2) = l := List.take_of_length_le (by omega)
      have hd : l.drop (k + 2) = [] := List.drop_eq_nil_of_le (by omega)
      have hgo : bubbleGo (k + 1) l = bubbleGo k (bubblePass l) := by
        simp [bubbleGo, ht, hd]
      have hperm := bubblePass_perm l
      have hlen2 : (bubblePass l).length = l.length := hperm.length_eq
      have h1 : ((bubblePass l).drop (k + 1)).Sorted (· ≤ ·) := by
        rw [List.drop_eq_nil_of_le (by omega)]
        simp
      have h2 : ∀ x ∈ (bubblePass l).take (k + 1),
          ∀ y ∈ (bubblePass l).drop (k + 1), x ≤ y := by
        intro x _ y hy
        rw [List.drop_eq_nil_of_le (by omega)] at hy
        simp at hy
      obtain ⟨hsorted, hp⟩ := ih (bubblePass l) h1 h2
      exact ⟨by rwa [hgo], by rw [hgo]; exact hp.trans hperm⟩
    · push_neg at hlen
      have hlp : (l.take (k + 2)).length = k + 2 := by
        rw [List.length_take]; omega
      have hqp : List.Perm (bubblePass (l.take (k + 2))) (l.take (k + 2)) :=
        bubblePass_perm _
      have hlq : (bubblePass (l.take (k + 2))).length = k + 2 := by
        rw [hqp.length_eq, hlp]
      have hqne : bubblePass (l.take (k + 2)) ≠ [] := by
        intro hnil
        rw [hnil] at hlq
        simp at hlq
      have hdecomp :
          (bubblePass (l.take (k + 2))).dropLast ++
            [(bubblePass (l.take (k + 2))).getLast hqne] =
          bubblePass (l.take (k + 2)) := List.dropLast_append_getLast hqne
      have hldl : (bubblePass (l.take (k + 2))).dropLast.length = k + 1 := by
        rw [List.length_dropLast, hlq]
        omega
      have hmlast : (bubblePass (l.take (k + 2))).getLastD 0 =
          (bubblePass (l.take (k + 2))).getLast hqne := by
        rw [List.getLastD_eq_getLast?, List.getLast?_eq_getLast _ hqne]
        rfl
      have hmax : ∀ x ∈ l.take (k + 2),
          x ≤ (bubblePass (l.take (k + 2))).getLast hqne := by
        intro x hx
        rw [← hmlast]
        exact bubblePass_le_getLastD (by intro hnil; rw [hnil] at hlp; simp at hlp) x hx
      have hmem_m : (bubblePass (l.take (k + 2))).getLast hqne ∈
          bubblePass (l.take (k + 2)) := List.getLast_mem hqne
      have hgo : bubbleGo (k + 1) l =
          bubbleGo k (bubblePass (l.take (k + 2)) ++ l.drop (k + 2)) := rfl
      have hq_split : bubblePass (l.take (k + 2)) ++ l.drop (k + 2) =
          (bubblePass (l.take (k + 2))).dropLast ++
            ((bubblePass (l.take (k + 2))).getLast hqne :: l.drop (k + 2)) := by
        conv_lhs => rw [← hdecomp]
        simp
      have hdrop : (bubblePass (l.take (k + 2)) ++ l.drop (k + 2)).drop (k + 1) =
          (bubblePass (l.take (k + 2))).getLast hqne :: l.drop (k + 2) := by
        rw [hq_split, List.drop_left' hldl]
      have htake : (bubblePass (l.take (k + 2)) ++ l.drop (k + 2)).take (k + 1) =
          (bubblePass (l.take (k + 2))).dropLast := by
        rw [hq_split, List.take_left' hldl]
      have hmr : ∀ y ∈ l.drop (k + 2),
          (bubblePass (l.take (k + 2))).getLast hqne ≤ y :=
        fun y hy => hle _ (hqp.mem_iff.mp hmem_m) y hy
      have h1 : ((bubblePass (l.take (k + 2)) ++ l.drop (k + 2)).drop (k + 1)).Sorted
          (· ≤ ·) := by
        rw [hdrop, List.sorted_cons]
        exact ⟨hmr, hs⟩
      have h2 : ∀ x ∈ (bubblePass (l.take (k + 2)) ++ l.drop (k + 2)).take (k + 1),
          ∀ y ∈ (bubblePass (l.take (k + 2)) ++ l.drop (k + 2)).drop (k + 1),
          x ≤ y := by
        rw [htake, hdrop]
        intro x hx y hy
        have hxq : x ∈ bubblePass (l.take (k + 2)) :=
          (List.dropLast_sublist _).subset hx
        have hxp : x ∈ l.take (k + 2) := hqp.mem_iff.mp hxq
        rcases List.mem_cons.mp hy with rfl | hyr
        · exact hmax x hxp
        · exact hle x hxp y hyr
      obtain ⟨hsorted, hperm'⟩ :=
        ih (bubblePass (l.take (k + 2)) ++ l.drop (k + 2)) h1 h2
      refine ⟨by rwa [hgo], ?_⟩
      rw [hgo]
      refine hperm'.trans ?_
      have := hqp.append_right (l.drop (k + 2))
      exact this.trans (by rw [List.take_append_drop])

/-- The bubble sort of `calculateTPSStats` sorts its input ascending
and permutes it. -/
theorem bubbleSortGo_sorted (l : List Nat) :
    (bubbleSortGo l).Sorted (· ≤ ·) ∧ List.Perm (bubbleSortGo l) l := by
  apply bubbleGo_sorted_perm
  · rw [List.drop_eq_nil_of_le (by omega)]
    simp
  · intro x _ y hy
    rw [List.drop_eq_nil_of_le (by omega)] at hy
    simp at hy

/-- C6: `calculateTPSStats` returns the minimum, the maximum and the
element at index `len/2` of the ascending sort of the history (the
middle element when the length is odd); on `[64,62,68,70,65]` it
returns (62,70,65) and on `[]` it returns (0,0,0). -/
theorem calculateTPSStats_correct :
    (∀ h : List Nat, h ≠ [] →
      ∃ s : List Nat, List.Perm s h ∧ s.Sorted (· ≤ ·) ∧
        calculateTPSStats h =
          (s.headD 0, s.getLastD 0, s.getD (s.length / 2) 0) ∧
        ∀ x ∈ h, s.headD 0 ≤ x ∧ x ≤ s.getLastD 0) ∧
    calculateTPSStats [64, 62, 68, 70, 65] = (62, 70, 65) ∧
    calculateTPSStats [] = (0, 0, 0) := by
  refine ⟨?_, by decide, by decide⟩
  intro h hne
  obtain ⟨hsorted, hperm⟩ := bubbleSortGo_sorted h
  refine ⟨bubbleSortGo h, hperm, hsorted, ?_, ?_⟩
  · obtain ⟨a, t, rfl⟩ : ∃ a t, h = a :: t := by
      cases h with
      | nil => exact absurd rfl hne
      | cons a t => exact ⟨a, t, rfl⟩
    simp [calculateTPSStats]
  · intro x hx
    have hxs : x ∈ bubbleSortGo h := hperm.mem_iff.mpr hx
    exact ⟨sorted_headD_le hsorted hxs, sorted_le_getLastD hsorted hxs⟩

/-- Witness for C6: the general part applied to the history
`[64,62,68,70,65]`. -/
theorem calculateTPSStats_correct_witness :
    ∃ s : List Nat, List.Perm s [64, 62, 68, 70, 65] ∧ s.Sorted (· ≤ ·) ∧
      calculateTPSStats [64, 62, 68, 70, 65] =
        (s.headD 0, s.getLastD 0, s.getD (s.length / 2) 0) ∧
      ∀ x ∈ [64, 62, 68, 70, 65], s.headD 0 ≤ x ∧ x ≤ s.getLastD 0 :=
  calculateTPSStats_correct.1 [64, 62, 68, 70, 65] (by decide)

/-- C9: on an even-length history the median reported by
`calculateTPSStats` is the element at index `len/2` of the ascending
sort — the upper of the two middle elements (in particular at least the
lower one), a fixed index choice rather than an average. -/
theorem calculateTPSStats_even_median (h : List Nat) (hne : h ≠ [])
    (heven : h.length % 2 = 0) :
    ∃ s : List Nat, List.Perm s h ∧ s.Sorted (· ≤ ·) ∧
      (calculateTPSStats h).2.2 = s.getD (h.length / 2) 0 ∧
      s.getD (h.length / 2 - 1) 0 ≤ s.getD (h.length / 2) 0 := by
  obtain ⟨hsorted, hperm⟩ := bubbleSortGo_sorted h
  have hlen : (bubbleSortGo h).length = h.length := hperm.length_eq
  have hpos : 0 < h.length := List.length_pos.mpr hne
  refine ⟨bubbleSortGo h, hperm, hsorted, ?_, ?_⟩
  · obtain ⟨a, t, rfl⟩ : ∃ a t, h = a :: t := by
      cases h with
      | nil => exact absurd rfl hne
      | cons a t => exact ⟨a, t, rfl⟩
    simp [calculateTPSStats, hlen]
  · have h2 : h.length / 2 < (bubbleSortGo h).length := by rw [hlen]; omega
    have h1 : h.length / 2 - 1 < (bubbleSortGo h).length := by rw [hlen]; omega
    rw [List.getD_eq_get _ _ h1, List.getD_eq_get _ _ h2]
    exact hsorted.rel_get_of_le (Fin.mk_le_mk.mpr (by omega))

/-- Witness for C9: the even-length history `[1,2]`: the reported
median is the upper middle element. -/
theorem calculateTPSStats_even_median_witness :
    ∃ s : List Nat, List.Perm s [1, 2] ∧ s.Sorted (· ≤ ·) ∧
      (calculateTPSStats [1, 2]).2.2 = s.getD ([1, 2].length / 2) 0 ∧
      s.getD ([1, 2].length / 2 - 1) 0 ≤ s.getD ([1, 2].length / 2) 0 :=
  calculateTPSStats_even_median [1, 2] (by decide) (by decide)

end U2U
